import Mathlib

/-!
Verification of the `dep` dependency-injection library.

The repository contains two near-duplicate provider engines:

* `src/dep/_dep.py` — a `@contextmanager`-based engine (`dep` / `sync_wrapper`)
  with a `ContextVar` stack of override mappings (`_resolve_function`,
  `context`), a string cache keyed by resolved-function id plus
  JSON-with-sorted-keys of the arguments, and cache eviction performed in a
  nested `finally` after teardown.

* `src/dep/dep.py` — an engine returning a `_SyncContextManager` handle, with a
  module-level `_overrides` dict consulted on every call and a `_cache` dict
  keyed by `(target_func, args, tuple(sorted(kwargs.items())))`.

`src/dep/override.py`'s registration function is not modelled: its
`from dep._dep import _overrides, _cache` names a module that defines no
`_overrides`, so importing it raises `ImportError`, the function can never
run, and the `_cache` the import would bind is `_dep.py`'s, not the state
`dep.py`'s wrapper reads.  No working code path in the repository mutates
the `_overrides` table consulted by `dep.py`.

Python generators are embedded by their observable behaviour at the two points
the engines resume them: the first `next()` (runs the setup phase to the first
`yield`) and the second `next()` (resumes the teardown half).  Python dicts are
embedded as association lists with first-occurrence lookup and
replace-or-append assignment, which reproduces `d.get`, `d[k] = v`,
`d.update`, `d.pop(k, None)` and `d.clear()` observationally.
-/

namespace Dep

/-- Values produced by providers and passed as positional arguments. -/
abbrev Val := Nat

/-- Identity of a user-level (non-engine) Python exception. -/
abbrev Err := Nat

/-- Identity of a Python function object (`id(f)`); providers are keyed by
identity, not by name. -/
abbrev FuncId := Nat

/-- Outcome of running a generator body to its first suspension point —
the first `next(result_gen)` in either engine's wrapper. -/
inductive FirstStep
  | yields (v : Val)
  | stops
  | raises (e : Err)
deriving DecidableEq, Repr

/-- Outcome of resuming the generator after its first yield — the second
`next(result_gen)` (the teardown half). -/
inductive SecondStep
  | stops
  | yields (v : Val)
  | raises (e : Err)
deriving DecidableEq, Repr

/-- Observable behaviour of one generator object produced by calling a
provider function with concrete arguments. -/
structure Gen where
  first : FirstStep
  second : SecondStep
deriving DecidableEq, Repr

/-- A program under test: the behaviour of every function identity when
called with given positional and keyword arguments, plus `__name__`. -/
structure Program where
  behav : FuncId → List Val → List (String × Val) → Gen
  name : FuncId → String

/-! ### Python dicts as association lists -/

section AssocList

variable {κ : Type} {ν : Type} [DecidableEq κ]

/-- `d.get(k)` / `k in d`: first-occurrence lookup. -/
def aget : List (κ × ν) → κ → Option ν
  | [], _ => none
  | p :: rest, k => if p.1 = k then some p.2 else aget rest k

/-- `d[k] = v`: replace the existing entry for `k` or append a new one. -/
def aset : List (κ × ν) → κ → ν → List (κ × ν)
  | [], k, v => [(k, v)]
  | p :: rest, k, v => if p.1 = k then (k, v) :: rest else p :: aset rest k v

/-- `d.pop(k, None)`: drop the entry for `k` if present. -/
def apop (d : List (κ × ν)) (k : κ) : List (κ × ν) :=
  d.filter fun p => if p.1 = k then false else true

end AssocList

/-! ### Keyword-argument normalization

`dep.py` builds its cache key with `tuple(sorted(kwargs.items()))`; the
`_dep.py` default `cache_key_func` serializes
`{"args": args, "kwargs": kwargs}` with `sort_keys=True`, which likewise
orders the keyword part by argument name.  Python's `sorted` on
`(name, value)` tuples orders by name first; since `kwargs` is a dict its
names are distinct, so the name alone decides.  We embed this as a stable
insertion sort on the name component. -/

/-- Insert one `(name, value)` pair into a name-sorted list. -/
def insertKw (p : String × Val) : List (String × Val) → List (String × Val)
  | [] => [p]
  | q :: rest => if p.1 < q.1 then p :: q :: rest else q :: insertKw p rest

/-- `sorted(kwargs.items())`: sort keyword pairs by argument name. -/
def sortKwargs : List (String × Val) → List (String × Val)
  | [] => []
  | p :: rest => insertKw p (sortKwargs rest)

/-! ### Engine events and common exit-path types -/

/-- Observable side effects of one invocation lifecycle. `setup f` is the
first `next()` on a generator created from function `f` (the setup phase
running to its yield or termination); `enterBlock v` is the consumer's block
starting with value `v`; `teardownResume f` is the second `next()` on `f`'s
generator (resuming the teardown half). -/
inductive Event
  | setup (f : FuncId)
  | enterBlock (v : Val)
  | teardownResume (f : FuncId)
deriving DecidableEq, Repr

def setupCount (evs : List Event) : Nat :=
  evs.countP fun e => match e with | .setup _ => true | _ => false

def teardownCount (evs : List Event) : Nat :=
  evs.countP fun e => match e with | .teardownResume _ => true | _ => false

def enterCount (evs : List Event) : Nat :=
  evs.countP fun e => match e with | .enterBlock _ => true | _ => false

/-- Errors the wrapper can raise. `didNotYield name` is the
`RuntimeError(f"{func.__name__} did not yield a value")` raised on
`StopIteration` from the first `next()`; `user e` is any exception from
provider code or from the consumer's block, propagated as-is. -/
inductive PyErr
  | didNotYield (name : String)
  | user (e : Err)
deriving DecidableEq, Repr

/-- How the consumer's code inside the scoped block exits: fall through
normally, return early from the enclosing function, or raise. -/
inductive ConsumerExit
  | normal
  | earlyReturn
  | raise (e : Err)
deriving DecidableEq, Repr

/-- How the whole acquire-use-release construct terminates. -/
inductive Outcome
  | completed
  | returned
  | error (e : PyErr)
deriving DecidableEq, Repr

/-! ### The `dep.py` engine

`src/dep/dep.py`: module state `_cache : dict[Callable, Any]` and
`_overrides : dict[Callable, Callable]`; `dep(cached=True)` wraps a generator
function into `sync_wrapper`, which resolves the target through `_overrides`,
builds the key `(target_func, args, tuple(sorted(kwargs.items())))`, and either
returns a `_SyncContextManager` around the cached value (no generator) or runs
the generator to its first yield, caches the value when `cached`, and returns a
`_SyncContextManager` holding the value and the generator.  `__exit__` resumes
the generator once, swallowing `StopIteration`, and returns `False`. -/

/-- A cache key: `(target_func, args, tuple(sorted(kwargs.items())))`. -/
abbrev Key := FuncId × List Val × List (String × Val)

/-- The module state of `dep.py`: its `_overrides` table and `_cache`. -/
structure GState where
  overrides : List (FuncId × FuncId)
  cache : List (Key × Val)
deriving DecidableEq, Repr

/-- `_SyncContextManager(value, generator=None)`: the handle holds the value
and optionally the pending generator, identified by its creation site
(function identity and arguments), which determines its remaining behaviour. -/
structure SyncCM where
  value : Val
  generator : Option (FuncId × List Val × List (String × Val))
deriving DecidableEq, Repr

/-- `if cached and cache_key in _cache`: the cached value used on a hit. -/
def hitVal (cached : Bool) (cache : List (Key × Val)) (k : Key) : Option Val :=
  if cached then aget cache k else none

/-- `_overrides.get(func, func)`. -/
def resolveW (overrides : List (FuncId × FuncId)) (func : FuncId) : FuncId :=
  (aget overrides func).getD func

/-- The `dep.py` cache key for a call. -/
def keyW (overrides : List (FuncId × FuncId)) (func : FuncId)
    (args : List Val) (kwargs : List (String × Val)) : Key :=
  (resolveW overrides func, args, sortKwargs kwargs)

/-- `sync_wrapper` of `src/dep/dep.py`: returns the raised error or the
`_SyncContextManager`, the new module state, and the emitted events. -/
def sync_wrapper (P : Program) (cached : Bool) (func : FuncId) (st : GState)
    (args : List Val) (kwargs : List (String × Val)) :
    Except PyErr SyncCM × GState × List Event :=
  let target_func := resolveW st.overrides func
  let cache_key : Key := (target_func, args, sortKwargs kwargs)
  match hitVal cached st.cache cache_key with
  | some v => (.ok ⟨v, none⟩, st, [])
  | none =>
    match (P.behav target_func args kwargs).first with
    | .yields v =>
      let st' := if cached then { st with cache := aset st.cache cache_key v } else st
      (.ok ⟨v, some (target_func, args, kwargs)⟩, st', [.setup target_func])
    | .stops => (.error (.didNotYield (P.name func)), st, [.setup target_func])
    | .raises e => (.error (.user e), st, [.setup target_func])

/-- `_SyncContextManager.__exit__`: if a generator is present, resume it once;
`StopIteration` is swallowed, a second yielded value is ignored, any other
exception propagates.  Returns the propagating teardown error, if any, and the
events. -/
def cmExit (P : Program) (cm : SyncCM) : Option Err × List Event :=
  match cm.generator with
  | none => (none, [])
  | some (f, args, kwargs) =>
    match (P.behav f args kwargs).second with
    | .stops => (none, [.teardownResume f])
    | .yields _ => (none, [.teardownResume f])
    | .raises e => (some e, [.teardownResume f])

/-- `with cm as v: body` over a `_SyncContextManager`: run the consumer with
the value, then `__exit__`; since `__exit__` returns `False`, a consumer
exception propagates unless the teardown itself raised. -/
def withCM (P : Program) (cm : SyncCM) (consumer : Val → ConsumerExit) :
    Outcome × List Event :=
  let c := consumer cm.value
  let (terr, tev) := cmExit P cm
  let evs := Event.enterBlock cm.value :: tev
  match terr with
  | some e => (.error (.user e), evs)
  | none =>
    match c with
    | .normal => (.completed, evs)
    | .earlyReturn => (.returned, evs)
    | .raise e => (.error (.user e), evs)

/-- A full `dep.py` acquisition: call the wrapper, then (if it succeeded)
run the consumer's block under the handle.  The consumer's block is entered
only when the wrapper returned a handle. -/
def callWith (P : Program) (cached : Bool) (func : FuncId) (st : GState)
    (args : List Val) (kwargs : List (String × Val))
    (consumer : Val → ConsumerExit) : Outcome × GState × List Event :=
  match sync_wrapper P cached func st args kwargs with
  | (.error e, st', evs) => (.error e, st', evs)
  | (.ok cm, st', evs) =>
    let (o, evs2) := withCM P cm consumer
    (o, st', evs ++ evs2)

/-! ### The `_dep.py` engine

`src/dep/_dep.py`: `_cache` keyed by
`f"{id(target_func)}:{cache_key_func(*args, **kwargs)}"` where the default
`cache_key_func` is `json.dumps({"args": args, "kwargs": kwargs},
sort_keys=True, default=str)` — determined by the resolved function identity,
the positional arguments, and the name-sorted keyword pairs; overrides live on
a `ContextVar` stack of mappings pushed and popped by the `context` class. -/

/-- The `ContextVar` stack of override mappings. -/
abbrev Stack := List (List (FuncId × FuncId))

/-- Walk a reversed stack: first mapping containing the function wins. -/
def resolveRev : Stack → FuncId → FuncId
  | [], f => f
  | o :: rest, f =>
    match aget o f with
    | some g => g
    | none => resolveRev rest f

/-- `_resolve_function`: walk the context stack from top to bottom, return
the first override found, else the function itself. -/
def _resolve_function (stack : Stack) (f : FuncId) : FuncId :=
  resolveRev stack.reverse f

/-- The `_dep.py` cache key of a call (the content of the key string). -/
def keyCM (stack : Stack) (func : FuncId) (args : List Val)
    (kwargs : List (String × Val)) : Key :=
  (_resolve_function stack func, args, sortKwargs kwargs)

/-- One full run of `_dep.py`'s `sync_wrapper` under `with`: resolution,
cache check, setup, caching, the consumer's block, then the `finally` chain —
teardown resumption (`StopIteration` swallowed, an extra yield ignored, other
exceptions propagating) followed unconditionally by cache eviction when
`cached`. -/
def cmCall (P : Program) (cached : Bool) (func : FuncId) (stack : Stack)
    (cache : List (Key × Val)) (args : List Val) (kwargs : List (String × Val))
    (consumer : Val → ConsumerExit) :
    Outcome × List (Key × Val) × List Event :=
  let target_func := _resolve_function stack func
  let cache_key : Key := (target_func, args, sortKwargs kwargs)
  match hitVal cached cache cache_key with
  | some v =>
    -- `yield _cache[cache_key]; return`: no teardown, no eviction
    match consumer v with
    | .normal => (.completed, cache, [.enterBlock v])
    | .earlyReturn => (.returned, cache, [.enterBlock v])
    | .raise e => (.error (.user e), cache, [.enterBlock v])
  | none =>
    match (P.behav target_func args kwargs).first with
    | .stops => (.error (.didNotYield (P.name func)), cache, [.setup target_func])
    | .raises e => (.error (.user e), cache, [.setup target_func])
    | .yields v =>
      let cache1 := if cached then aset cache cache_key v else cache
      let c := consumer v
      let terr : Option Err :=
        match (P.behav target_func args kwargs).second with
        | .stops => none
        | .yields _ => none
        | .raises e => some e
      let cache2 := if cached then apop cache1 cache_key else cache1
      let evs := [Event.setup target_func, Event.enterBlock v,
        Event.teardownResume target_func]
      match terr with
      | some e => (.error (.user e), cache2, evs)
      | none =>
        match c with
        | .normal => (.completed, cache2, evs)
        | .earlyReturn => (.returned, cache2, evs)
        | .raise e => (.error (.user e), cache2, evs)

/-- `context.__enter__`: copy the current stack, append the overrides, set the
`ContextVar`; the returned token records the previous value. -/
def context_enter (stack : Stack) (ovr : List (FuncId × FuncId)) :
    Stack × Stack :=
  (stack ++ [ovr], stack)

/-- `context.__exit__`: `ContextVar.reset(token)` restores the value the
variable had before the corresponding `set`. -/
def context_exit (token : Stack) : Stack := token

/-- `with context(ovr): body` — the body runs on the pushed stack and may
raise; `__exit__` runs on both paths and restores the stack. -/
def withContext {α : Type} (stack : Stack) (ovr : List (FuncId × FuncId))
    (body : Stack → Except Err α) : Except Err α × Stack :=
  let (inner, token) := context_enter stack ovr
  (body inner, context_exit token)

/-! ### A concrete program used for witnesses and counterexamples -/

/-- A small concrete program: function 1 never yields, function 2 has a
failing teardown, function 3 yields a second value from its teardown,
function 4 is used as a replacement, and every other function yields `7`
with a clean teardown. -/
def exProg : Program where
  behav := fun f _ _ =>
    if f = 1 then ⟨.stops, .stops⟩
    else if f = 2 then ⟨.yields 5, .raises 3⟩
    else if f = 3 then ⟨.yields 1, .yields 2⟩
    else if f = 4 then ⟨.yields 9, .stops⟩
    else ⟨.yields 7, .stops⟩
  name := fun f => if f = 1 then "no_yield" else "provider"

/-! ### Dict and normalization lemmas -/

section AssocListLemmas

variable {κ : Type} {ν : Type} [DecidableEq κ]

theorem aget_aset (d : List (κ × ν)) (k : κ) (v : ν) (k' : κ) :
    aget (aset d k v) k' = if k' = k then some v else aget d k' := by
  induction d with
  | nil =>
    by_cases h : k' = k
    · simp [aset, aget, h]
    · have hk : ¬ k = k' := fun hh => h hh.symm
      simp [aset, aget, h, hk]
  | cons p rest ih =>
    by_cases hp : p.1 = k
    · by_cases h : k' = k
      · subst h; simp [aset, aget, hp]
      · have hkk : ¬ k = k' := fun hh => h hh.symm
        have hpk : ¬ p.1 = k' := fun hh => h (hp.symm.trans hh).symm
        simp [aset, aget, hp, h, hkk, hpk]
    · by_cases h : k' = k
      · subst h; simp [aset, aget, hp, ih]
      · simp [aset, aget, hp, h, ih]

theorem aget_apop_self (d : List (κ × ν)) (k : κ) :
    aget (apop d k) k = none := by
  induction d with
  | nil => rfl
  | cons p rest ih =>
    by_cases hp : p.1 = k
    · simpa [apop, List.filter_cons, hp] using ih
    · simpa [apop, List.filter_cons, aget, hp] using ih

theorem aget_apop_ne (d : List (κ × ν)) (k k' : κ) (h : k' ≠ k) :
    aget (apop d k) k' = aget d k' := by
  induction d with
  | nil => rfl
  | cons p rest ih =>
    by_cases hp : p.1 = k
    · have hkk : ¬ k = k' := fun hh => h hh.symm
      simpa [apop, List.filter_cons, aget, hp, hkk] using ih
    · by_cases hk : p.1 = k'
      · simp [apop, List.filter_cons, aget, hp, hk, h]
      · simpa [apop, List.filter_cons, aget, hp, hk, h] using ih

end AssocListLemmas

theorem insertKw_perm (p : String × Val) (l : List (String × Val)) :
    (insertKw p l).Perm (p :: l) := by
  induction l with
  | nil => exact List.Perm.refl _
  | cons q rest ih =>
    by_cases h : p.1 < q.1
    · simp [insertKw, h]
    · simp only [insertKw, if_neg h]
      exact (ih.cons q).trans (List.Perm.swap p q rest)

theorem sortKwargs_perm (l : List (String × Val)) : (sortKwargs l).Perm l := by
  induction l with
  | nil => exact List.Perm.refl _
  | cons p rest ih => exact (insertKw_perm p (sortKwargs rest)).trans (ih.cons p)

theorem insertKw_sorted (p : String × Val) (l : List (String × Val))
    (h : l.Pairwise fun a b => a.1 ≤ b.1) :
    (insertKw p l).Pairwise fun a b => a.1 ≤ b.1 := by
  induction l with
  | nil => simp [insertKw]
  | cons q rest ih =>
    rcases List.pairwise_cons.mp h with ⟨hq, hrest⟩
    by_cases hpq : p.1 < q.1
    · simp only [insertKw, if_pos hpq]
      refine List.pairwise_cons.mpr ⟨?_, h⟩
      intro b hb
      rcases List.mem_cons.mp hb with hb | hb
      · exact hb ▸ le_of_lt hpq
      · exact le_trans (le_of_lt hpq) (hq b hb)
    · simp only [insertKw, if_neg hpq]
      refine List.pairwise_cons.mpr ⟨?_, ih hrest⟩
      intro b hb
      have hb' : b ∈ p :: rest := (insertKw_perm p rest).mem_iff.mp hb
      rcases List.mem_cons.mp hb' with hb' | hb'
      · exact hb' ▸ not_lt.mp hpq
      · exact hq b hb'

theorem sortKwargs_sorted (l : List (String × Val)) :
    (sortKwargs l).Pairwise fun a b => a.1 ≤ b.1 := by
  induction l with
  | nil => simp [sortKwargs]
  | cons p rest ih => exact insertKw_sorted p (sortKwargs rest) ih

/-- Two keyword-argument lists that are permutations of each other (with
distinct argument names, as Python keyword arguments always are) normalize
to the same sorted list. -/
theorem sortKwargs_eq_of_perm (l₁ l₂ : List (String × Val))
    (hp : l₁.Perm l₂) (hnd : (l₁.map Prod.fst).Nodup) :
    sortKwargs l₁ = sortKwargs l₂ := by
  have hperm : (sortKwargs l₁).Perm (sortKwargs l₂) :=
    (sortKwargs_perm l₁).trans (hp.trans (sortKwargs_perm l₂).symm)
  have hnd₁ : ((sortKwargs l₁).map Prod.fst).Nodup :=
    (List.Perm.map Prod.fst (sortKwargs_perm l₁).symm).nodup hnd
  have hnd₂ : ((sortKwargs l₂).map Prod.fst).Nodup :=
    (List.Perm.map Prod.fst hperm).nodup hnd₁
  have hs₁ : ((sortKwargs l₁).map Prod.fst).Sorted (· ≤ ·) :=
    List.pairwise_map.mpr (sortKwargs_sorted l₁)
  have hs₂ : ((sortKwargs l₂).map Prod.fst).Sorted (· ≤ ·) :=
    List.pairwise_map.mpr (sortKwargs_sorted l₂)
  have hlt₁ : (sortKwargs l₁).Pairwise fun a b => a.1 < b.1 :=
    List.pairwise_map.mp (hs₁.lt_of_le hnd₁)
  have hlt₂ : (sortKwargs l₂).Pairwise fun a b => a.1 < b.1 :=
    List.pairwise_map.mp (hs₂.lt_of_le hnd₂)
  haveI : IsAntisymm (String × Val) (fun a b => a.1 < b.1) :=
    ⟨fun a b h1 h2 => absurd (lt_trans h1 h2) (lt_irrefl _)⟩
  exact List.eq_of_perm_of_sorted hperm hlt₁ hlt₂

/-! ### Reduction lemmas for the engines -/

theorem hitVal_none (cached : Bool) (cache : List (Key × Val)) (k : Key)
    (h : aget cache k = none) : hitVal cached cache k = none := by
  cases cached <;> simp [hitVal, h]

theorem sync_wrapper_miss (P : Program) (cached : Bool) (func : FuncId)
    (st : GState) (args : List Val) (kwargs : List (String × Val))
    (hmiss : aget st.cache (keyW st.overrides func args kwargs) = none) :
    sync_wrapper P cached func st args kwargs =
      match (P.behav (resolveW st.overrides func) args kwargs).first with
      | .yields v =>
        (.ok ⟨v, some (resolveW st.overrides func, args, kwargs)⟩,
         (if cached then
            { st with cache := aset st.cache (keyW st.overrides func args kwargs) v }
          else st),
         [.setup (resolveW st.overrides func)])
      | .stops =>
        (.error (.didNotYield (P.name func)), st,
         [.setup (resolveW st.overrides func)])
      | .raises e =>
        (.error (.user e), st, [.setup (resolveW st.overrides func)]) := by
  have hh : hitVal cached st.cache (keyW st.overrides func args kwargs) = none :=
    hitVal_none cached _ _ hmiss
  simp only [sync_wrapper, keyW] at hh ⊢
  rw [hh]

theorem sync_wrapper_hit (P : Program) (func : FuncId) (st : GState)
    (args : List Val) (kwargs : List (String × Val)) (v : Val)
    (hv : aget st.cache (keyW st.overrides func args kwargs) = some v) :
    sync_wrapper P true func st args kwargs = (.ok ⟨v, none⟩, st, []) := by
  have hh : hitVal true st.cache (keyW st.overrides func args kwargs) = some v := by
    simpa [hitVal] using hv
  simp only [sync_wrapper, keyW] at hh ⊢
  rw [hh]

theorem cmCall_hit (P : Program) (func : FuncId) (stack : Stack)
    (cache : List (Key × Val)) (args : List Val) (kwargs : List (String × Val))
    (consumer : Val → ConsumerExit) (v : Val)
    (hv : aget cache (keyCM stack func args kwargs) = some v) :
    cmCall P true func stack cache args kwargs consumer =
      match consumer v with
      | .normal => (.completed, cache, [.enterBlock v])
      | .earlyReturn => (.returned, cache, [.enterBlock v])
      | .raise e => (.error (.user e), cache, [.enterBlock v]) := by
  have hh : hitVal true cache (keyCM stack func args kwargs) = some v := by
    simpa [hitVal] using hv
  simp only [cmCall, keyCM] at hh ⊢
  rw [hh]

theorem cmCall_miss_yields (P : Program) (cached : Bool) (func : FuncId)
    (stack : Stack) (cache : List (Key × Val)) (args : List Val)
    (kwargs : List (String × Val)) (consumer : Val → ConsumerExit) (v : Val)
    (hmiss : aget cache (keyCM stack func args kwargs) = none)
    (hy : (P.behav (_resolve_function stack func) args kwargs).first = .yields v) :
    cmCall P cached func stack cache args kwargs consumer =
      (match (P.behav (_resolve_function stack func) args kwargs).second with
       | .raises e => Outcome.error (.user e)
       | _ =>
         match consumer v with
         | .normal => Outcome.completed
         | .earlyReturn => Outcome.returned
         | .raise e => Outcome.error (.user e),
       (if cached then
          apop (aset cache (keyCM stack func args kwargs) v)
            (keyCM stack func args kwargs)
        else cache),
       [.setup (_resolve_function stack func), .enterBlock v,
        .teardownResume (_resolve_function stack func)]) := by
  have hh : hitVal cached cache (keyCM stack func args kwargs) = none :=
    hitVal_none cached _ _ hmiss
  simp only [cmCall, keyCM] at hh hy ⊢
  rw [hh, hy]
  cases hs : (P.behav (_resolve_function stack func) args kwargs).second <;>
    cases hc : consumer v <;> cases cached <;> simp [hs, hc]

theorem cmCall_miss_stops (P : Program) (cached : Bool) (func : FuncId)
    (stack : Stack) (cache : List (Key × Val)) (args : List Val)
    (kwargs : List (String × Val)) (consumer : Val → ConsumerExit)
    (hmiss : aget cache (keyCM stack func args kwargs) = none)
    (hs : (P.behav (_resolve_function stack func) args kwargs).first = .stops) :
    cmCall P cached func stack cache args kwargs consumer =
      (.error (.didNotYield (P.name func)), cache,
       [.setup (_resolve_function stack func)]) := by
  have hh : hitVal cached cache (keyCM stack func args kwargs) = none :=
    hitVal_none cached _ _ hmiss
  simp only [cmCall, keyCM] at hh hs ⊢
  rw [hh, hs]

/-- Resolution against a stack with one more frame pushed on top: the new
frame wins when it contains the function. -/
theorem resolve_push (s : Stack) (o : List (FuncId × FuncId)) (f : FuncId) :
    _resolve_function (s ++ [o]) f =
      match aget o f with
      | some g => g
      | none => _resolve_function s f := by
  simp only [_resolve_function, List.reverse_append, List.reverse_cons,
    List.reverse_nil, List.nil_append, List.singleton_append]
  rfl

/-- If no frame of the stack overrides `f`, resolution returns `f` itself. -/
theorem resolve_id (s : Stack) (f : FuncId)
    (h : ∀ o ∈ s, aget o f = none) : _resolve_function s f = f := by
  suffices hrev : ∀ l : Stack, (∀ o ∈ l, aget o f = none) → resolveRev l f = f by
    exact hrev s.reverse fun o ho => h o (List.mem_reverse.mp ho)
  intro l hl
  induction l with
  | nil => rfl
  | cons o rest ih =>
    have ho : aget o f = none := hl o (List.mem_cons_self o rest)
    simp only [resolveRev, ho]
    exact ih fun o' ho' => hl o' (List.mem_cons_of_mem o ho')

/-! ### Claim theorems -/

/-- C1: for every decorated provider whose setup phase yields a value, the
teardown half of the provider's generator is resumed exactly once when the
consuming scope exits, on every exit path (normal completion, early return,
raised consumer failure), in both engines; and when the teardown completes,
a failure raised by the consumer's code propagates unchanged after teardown
has run. -/
theorem C1_teardown_once_and_failure_propagates
    (P : Program) (cached : Bool) (func : FuncId) (st : GState)
    (stack : Stack) (cache : List (Key × Val)) (args : List Val)
    (kwargs : List (String × Val)) (c : ConsumerExit) (v w : Val)
    (hmissW : aget st.cache (keyW st.overrides func args kwargs) = none)
    (hyW : (P.behav (resolveW st.overrides func) args kwargs).first = .yields v)
    (hmissC : aget cache (keyCM stack func args kwargs) = none)
    (hyC : (P.behav (_resolve_function stack func) args kwargs).first = .yields w) :
    (teardownCount (callWith P cached func st args kwargs (fun _ => c)).2.2 = 1
     ∧ ((P.behav (resolveW st.overrides func) args kwargs).second = .stops →
        ∀ e, c = .raise e →
        (callWith P cached func st args kwargs (fun _ => c)).1 = .error (.user e)))
    ∧ (teardownCount (cmCall P cached func stack cache args kwargs (fun _ => c)).2.2 = 1
     ∧ ((P.behav (_resolve_function stack func) args kwargs).second = .stops →
        ∀ e, c = .raise e →
        (cmCall P cached func stack cache args kwargs (fun _ => c)).1 = .error (.user e))) := by
  have hw := sync_wrapper_miss P cached func st args kwargs hmissW
  rw [hyW] at hw
  have hc := cmCall_miss_yields P cached func stack cache args kwargs
    (fun _ => c) w hmissC hyC
  refine ⟨⟨?_, ?_⟩, ?_, ?_⟩
  · cases hs : (P.behav (resolveW st.overrides func) args kwargs).second <;>
      cases c <;>
        simp [callWith, hw, withCM, cmExit, hs, teardownCount,
          List.countP_cons, List.countP_nil]
  · intro hs e hce
    subst hce
    simp [callWith, hw, withCM, cmExit, hs]
  · cases hs : (P.behav (_resolve_function stack func) args kwargs).second <;>
      cases c <;>
        simp [hc, hs, teardownCount, List.countP_cons, List.countP_nil]
  · intro hs e hce
    subst hce
    simp [hc, hs]

theorem C1_witness :
    teardownCount (callWith exProg true 0 ⟨[], []⟩ [] [] (fun _ => .raise 4)).2.2 = 1
    ∧ (callWith exProg true 0 ⟨[], []⟩ [] [] (fun _ => .raise 4)).1 = .error (.user 4)
    ∧ teardownCount (cmCall exProg true 0 [] [] [] [] (fun _ => .raise 4)).2.2 = 1
    ∧ (cmCall exProg true 0 [] [] [] [] (fun _ => .raise 4)).1 = .error (.user 4) := by
  have h := C1_teardown_once_and_failure_propagates exProg true 0 ⟨[], []⟩ [] [] [] []
    (.raise 4) 7 7 (by decide) (by decide) (by decide) (by decide)
  exact ⟨h.1.1, h.1.2 (by decide) 4 rfl, h.2.1, h.2.2 (by decide) 4 rfl⟩

/-- C2: when the resolved setup phase terminates without yielding, the call
fails with `RuntimeError(f"{func.__name__} did not yield a value")` naming
the provider; the consumer's block is never entered (no `enterBlock` event),
nothing is cached (the state is unchanged), and no teardown is attempted
(no `teardownResume` event) — in both engines. -/
theorem C2_no_yield_contract_violation
    (P : Program) (cached : Bool) (func : FuncId) (st : GState) (stack : Stack)
    (cache : List (Key × Val)) (args : List Val) (kwargs : List (String × Val))
    (consumer : Val → ConsumerExit)
    (hmissW : aget st.cache (keyW st.overrides func args kwargs) = none)
    (hsW : (P.behav (resolveW st.overrides func) args kwargs).first = .stops)
    (hmissC : aget cache (keyCM stack func args kwargs) = none)
    (hsC : (P.behav (_resolve_function stack func) args kwargs).first = .stops) :
    callWith P cached func st args kwargs consumer =
      (.error (.didNotYield (P.name func)), st,
       [.setup (resolveW st.overrides func)])
    ∧ cmCall P cached func stack cache args kwargs consumer =
      (.error (.didNotYield (P.name func)), cache,
       [.setup (_resolve_function stack func)]) := by
  have hw := sync_wrapper_miss P cached func st args kwargs hmissW
  rw [hsW] at hw
  exact ⟨by simp [callWith, hw],
    cmCall_miss_stops P cached func stack cache args kwargs consumer hmissC hsC⟩

theorem C2_witness :
    callWith exProg true 1 ⟨[], []⟩ [] [] (fun _ => .normal) =
      (.error (.didNotYield "no_yield"), ⟨[], []⟩, [.setup 1])
    ∧ cmCall exProg true 1 [] [] [] [] (fun _ => .normal) =
      (.error (.didNotYield "no_yield"), [], [.setup 1]) :=
  C2_no_yield_contract_violation exProg true 1 ⟨[], []⟩ [] [] [] []
    (fun _ => .normal) (by decide) (by decide) (by decide) (by decide)

/-- C3 counterexample: in the `dep.py` engine (`_SyncContextManager.__exit__`
performs no cache eviction), after the acquisition that populated the cache
has fully exited its scope, the cache STILL contains the key (`some 7`, not
`none`), and a subsequent acquisition with the same key does not re-run the
setup phase (its wrapper emits no `setup` event). -/
theorem C3_counterexample :
    ¬ aget (callWith exProg true 0 ⟨[], []⟩ [] [] (fun _ => .normal)).2.1.cache
        (0, [], []) = none
    ∧ aget (callWith exProg true 0 ⟨[], []⟩ [] [] (fun _ => .normal)).2.1.cache
        (0, [], []) = some 7
    ∧ setupCount (sync_wrapper exProg true 0
        (callWith exProg true 0 ⟨[], []⟩ [] [] (fun _ => .normal)).2.1 [] []).2.2 = 0 := by
  decide

/-- C3 amended: in the contextmanager engine (`_dep.py`), once the
acquisition that populated the cache exits its scope, the key is gone and a
subsequent acquisition re-runs setup; in the `dep.py` engine the entry
persists after scope exit and a subsequent acquisition is a cache hit that
does not re-run setup (see the counterexample). This theorem proves the
`_dep.py` half. -/
theorem C3_amended_cm_eviction_then_rerun
    (P : Program) (func : FuncId) (stack : Stack) (cache : List (Key × Val))
    (args : List Val) (kwargs : List (String × Val)) (c c' : ConsumerExit) (v : Val)
    (hmiss : aget cache (keyCM stack func args kwargs) = none)
    (hy : (P.behav (_resolve_function stack func) args kwargs).first = .yields v) :
    aget (cmCall P true func stack cache args kwargs (fun _ => c)).2.1
      (keyCM stack func args kwargs) = none
    ∧ setupCount (cmCall P true func stack
        (cmCall P true func stack cache args kwargs (fun _ => c)).2.1
        args kwargs (fun _ => c')).2.2 = 1 := by
  have hc := cmCall_miss_yields P true func stack cache args kwargs
    (fun _ => c) v hmiss hy
  have hcache : (cmCall P true func stack cache args kwargs (fun _ => c)).2.1 =
      apop (aset cache (keyCM stack func args kwargs) v)
        (keyCM stack func args kwargs) := by
    simp [hc]
  have hmiss2 : aget (cmCall P true func stack cache args kwargs (fun _ => c)).2.1
      (keyCM stack func args kwargs) = none := by
    rw [hcache]; exact aget_apop_self _ _
  refine ⟨hmiss2, ?_⟩
  have hc2 := cmCall_miss_yields P true func stack
    (cmCall P true func stack cache args kwargs (fun _ => c)).2.1
    args kwargs (fun _ => c') v hmiss2 hy
  simp [hc2, setupCount, List.countP_cons, List.countP_nil]

theorem C3_witness :
    aget (cmCall exProg true 0 [] [] [] [] (fun _ => .normal)).2.1
      (keyCM [] 0 [] []) = none
    ∧ setupCount (cmCall exProg true 0 []
        (cmCall exProg true 0 [] [] [] [] (fun _ => .normal)).2.1
        [] [] (fun _ => .earlyReturn)).2.2 = 1 :=
  C3_amended_cm_eviction_then_rerun exProg 0 [] [] [] [] .normal .earlyReturn 7
    (by decide) (by decide)

/-- C4: in the contextmanager engine, when this invocation populated the
cache (no cache hit) and the teardown resumption itself raises, the cache
entry for the key is still removed (`_cache.pop` sits in a nested `finally`)
and the teardown failure propagates. -/
theorem C4_eviction_despite_teardown_failure
    (P : Program) (func : FuncId) (stack : Stack) (cache : List (Key × Val))
    (args : List Val) (kwargs : List (String × Val)) (c : ConsumerExit)
    (v : Val) (e : Err)
    (hmiss : aget cache (keyCM stack func args kwargs) = none)
    (hy : (P.behav (_resolve_function stack func) args kwargs).first = .yields v)
    (ht : (P.behav (_resolve_function stack func) args kwargs).second = .raises e) :
    aget (cmCall P true func stack cache args kwargs (fun _ => c)).2.1
      (keyCM stack func args kwargs) = none
    ∧ (cmCall P true func stack cache args kwargs (fun _ => c)).1 = .error (.user e) := by
  have hc := cmCall_miss_yields P true func stack cache args kwargs
    (fun _ => c) v hmiss hy
  constructor
  · have hcache : (cmCall P true func stack cache args kwargs (fun _ => c)).2.1 =
        apop (aset cache (keyCM stack func args kwargs) v)
          (keyCM stack func args kwargs) := by
      simp [hc]
    rw [hcache]; exact aget_apop_self _ _
  · simp [hc, ht]

theorem C4_witness :
    aget (cmCall exProg true 2 [] [] [] [] (fun _ => .normal)).2.1
      (keyCM [] 2 [] []) = none
    ∧ (cmCall exProg true 2 [] [] [] [] (fun _ => .normal)).1 = .error (.user 3) :=
  C4_eviction_despite_teardown_failure exProg 2 [] [] [] [] .normal 5 3
    (by decide) (by decide) (by decide)

/-- C7: while a populating acquisition is still active (the cache holds a
value for the key), a second acquisition with the same resolved
implementation and normalized arguments observes the cached value without
re-running setup, its handle carries no teardown reference
(`generator = none`), and its scope exit runs no teardown — in both
engines; the `_dep.py` hit path also leaves the cache untouched. -/
theorem C7_cache_hit_no_setup_no_teardown
    (P : Program) (func : FuncId) (st : GState) (stack : Stack)
    (cache : List (Key × Val)) (args : List Val) (kwargs : List (String × Val))
    (v : Val) (c : ConsumerExit)
    (hvW : aget st.cache (keyW st.overrides func args kwargs) = some v)
    (hvC : aget cache (keyCM stack func args kwargs) = some v) :
    sync_wrapper P true func st args kwargs = (.ok ⟨v, none⟩, st, [])
    ∧ teardownCount (withCM P ⟨v, none⟩ (fun _ => c)).2 = 0
    ∧ setupCount (cmCall P true func stack cache args kwargs (fun _ => c)).2.2 = 0
    ∧ teardownCount (cmCall P true func stack cache args kwargs (fun _ => c)).2.2 = 0
    ∧ (cmCall P true func stack cache args kwargs (fun _ => c)).2.1 = cache := by
  have hhit := cmCall_hit P func stack cache args kwargs (fun _ => c) v hvC
  refine ⟨sync_wrapper_hit P func st args kwargs v hvW, ?_, ?_, ?_, ?_⟩
  · cases c <;> simp [withCM, cmExit, teardownCount, List.countP_cons, List.countP_nil]
  · cases c <;> simp [hhit, setupCount, List.countP_cons, List.countP_nil]
  · cases c <;> simp [hhit, teardownCount, List.countP_cons, List.countP_nil]
  · cases c <;> simp [hhit]

theorem C7_witness :
    sync_wrapper exProg true 0 ⟨[], [((0, [], []), 7)]⟩ [] [] =
      (.ok ⟨7, none⟩, ⟨[], [((0, [], []), 7)]⟩, [])
    ∧ teardownCount (withCM exProg ⟨7, none⟩ (fun _ => .normal)).2 = 0
    ∧ setupCount (cmCall exProg true 0 [] [((0, [], []), 7)] [] []
        (fun _ => .normal)).2.2 = 0
    ∧ teardownCount (cmCall exProg true 0 [] [((0, [], []), 7)] [] []
        (fun _ => .normal)).2.2 = 0
    ∧ (cmCall exProg true 0 [] [((0, [], []), 7)] [] []
        (fun _ => .normal)).2.1 = [((0, [], []), 7)] :=
  C7_cache_hit_no_setup_no_teardown exProg 0 ⟨[], [((0, [], []), 7)]⟩ []
    [((0, [], []), 7)] [] [] 7 .normal (by decide) (by decide)

/-- C8: two calls whose keyword arguments are permutations of each other
(with distinct names, as Python keyword arguments are) produce the same
cache key in both engines' key constructions, so with caching enabled the
first call performs the single setup and the second call, made while the
first is active, is a pure cache hit with no setup. -/
theorem C8_kwargs_permutation_single_setup
    (P : Program) (func : FuncId) (st : GState) (stack : Stack)
    (args : List Val) (kw1 kw2 : List (String × Val)) (v : Val)
    (hperm : kw1.Perm kw2) (hnd : (kw1.map Prod.fst).Nodup)
    (hmiss : aget st.cache (keyW st.overrides func args kw1) = none)
    (hy : (P.behav (resolveW st.overrides func) args kw1).first = .yields v) :
    keyW st.overrides func args kw1 = keyW st.overrides func args kw2
    ∧ keyCM stack func args kw1 = keyCM stack func args kw2
    ∧ setupCount (sync_wrapper P true func st args kw1).2.2 = 1
    ∧ sync_wrapper P true func (sync_wrapper P true func st args kw1).2.1 args kw2
        = (.ok ⟨v, none⟩, (sync_wrapper P true func st args kw1).2.1, []) := by
  have hsort : sortKwargs kw1 = sortKwargs kw2 :=
    sortKwargs_eq_of_perm kw1 kw2 hperm hnd
  have hkeyW : keyW st.overrides func args kw1 = keyW st.overrides func args kw2 := by
    simp [keyW, hsort]
  have hkeyC : keyCM stack func args kw1 = keyCM stack func args kw2 := by
    simp [keyCM, hsort]
  have hw := sync_wrapper_miss P true func st args kw1 hmiss
  rw [hy] at hw
  have hst1 : (sync_wrapper P true func st args kw1).2.1 =
      { st with cache := aset st.cache (keyW st.overrides func args kw1) v } := by
    simp [hw]
  refine ⟨hkeyW, hkeyC, by simp [hw, setupCount, List.countP_cons, List.countP_nil], ?_⟩
  rw [hst1]
  refine sync_wrapper_hit P func _ args kw2 v ?_
  show aget (aset st.cache (keyW st.overrides func args kw1) v)
      (keyW st.overrides func args kw2) = some v
  rw [← hkeyW, aget_aset, if_pos rfl]

theorem C8_witness :
    keyW [] 0 [] [("a", 1), ("b", 2)] = keyW [] 0 [] [("b", 2), ("a", 1)]
    ∧ keyCM [] 0 [] [("a", 1), ("b", 2)] = keyCM [] 0 [] [("b", 2), ("a", 1)]
    ∧ setupCount (sync_wrapper exProg true 0 ⟨[], []⟩ [] [("a", 1), ("b", 2)]).2.2 = 1
    ∧ sync_wrapper exProg true 0
        (sync_wrapper exProg true 0 ⟨[], []⟩ [] [("a", 1), ("b", 2)]).2.1
        [] [("b", 2), ("a", 1)]
        = (.ok ⟨7, none⟩,
           (sync_wrapper exProg true 0 ⟨[], []⟩ [] [("a", 1), ("b", 2)]).2.1, []) :=
  C8_kwargs_permutation_single_setup exProg 0 ⟨[], []⟩ [] []
    [("a", 1), ("b", 2)] [("b", 2), ("a", 1)] 7
    (by decide) (by decide) (by decide) (by decide)

/-- C9: at a provider whose teardown resumption yields a second value
(`yield 1; yield 2`), both engines complete the scoped block normally: the
extra value is silently discarded and no teardown-anomaly error reaches the
caller — the code does not surface the defect the spec requires. -/
theorem C9_second_yield_silently_accepted :
    (exProg.behav 3 [] []).second = .yields 2
    ∧ (callWith exProg true 3 ⟨[], []⟩ [] [] (fun _ => .normal)).1 = .completed
    ∧ (cmCall exProg true 3 [] [] [] [] (fun _ => .normal)).1 = .completed := by
  decide

/-- C10: the context-stack override mechanism of `_dep.py` is lexically
scoped and restores state exactly: inside nested `context` blocks, a
provider resolves to the replacement from the most recently entered
enclosing context whose mapping contains it, or to itself when no enclosing
context overrides it; after a `context` block exits (the body having
returned or raised), the stack is exactly what it was before entry, so
every provider resolves as it did before. -/
theorem C10_context_stack_lexical_scoping
    (s : Stack) (o₁ o₂ : List (FuncId × FuncId)) (f : FuncId)
    (body : Stack → Except Err Val) :
    (_resolve_function ((s ++ [o₁]) ++ [o₂]) f =
      match aget o₂ f with
      | some g => g
      | none =>
        match aget o₁ f with
        | some g => g
        | none => _resolve_function s f)
    ∧ ((∀ o ∈ s, aget o f = none) → _resolve_function s f = f)
    ∧ (withContext s o₁ body).1 = body (s ++ [o₁])
    ∧ (withContext s o₁ body).2 = s
    ∧ (∀ g, _resolve_function (withContext s o₁ body).2 g = _resolve_function s g) := by
  refine ⟨?_, resolve_id s f, rfl, rfl, fun g => rfl⟩
  rw [resolve_push, resolve_push]

theorem C10_witness :
    (_resolve_function (([[(5, 6)]] ++ [[(0, 4)]]) ++ [[(0, 2)]]) 0 = 2
      ∧ _resolve_function (([[(5, 6)]] ++ [[(0, 4)]]) ++ [[(0, 2)]]) 5 = 6
      ∧ _resolve_function (([[(5, 6)]] ++ [[(0, 4)]]) ++ [[(0, 2)]]) 9 = 9)
    ∧ (withContext [[(5, 6)]] [(0, 4)]
        (fun _ => (Except.error 1 : Except Err Val))).2 = [[(5, 6)]]
    ∧ _resolve_function [[(5, 6)]] 0 = 0 := by
  refine ⟨⟨?_, ?_, ?_⟩, ?_, ?_⟩
  · have h := (C10_context_stack_lexical_scoping [[(5, 6)]] [(0, 4)] [(0, 2)] 0
      (fun _ => (Except.error 1 : Except Err Val))).1
    rw [h]; decide
  · have h := (C10_context_stack_lexical_scoping [[(5, 6)]] [(0, 4)] [(0, 2)] 5
      (fun _ => (Except.error 1 : Except Err Val))).1
    rw [h]; decide
  · have h := (C10_context_stack_lexical_scoping [[(5, 6)]] [(0, 4)] [(0, 2)] 9
      (fun _ => (Except.error 1 : Except Err Val))).1
    rw [h]
    have h9 := (C10_context_stack_lexical_scoping [[(5, 6)]] [(0, 4)] [(0, 2)] 9
      (fun _ => (Except.error 1 : Except Err Val))).2.1
    simp only [aget]
    exact h9 (by decide)
  · exact (C10_context_stack_lexical_scoping [[(5, 6)]] [(0, 4)] [(0, 2)] 0
      (fun _ => (Except.error 1 : Except Err Val))).2.2.2.1
  · exact (C10_context_stack_lexical_scoping [[(5, 6)]] [] [] 0
      (fun _ => (Except.error 1 : Except Err Val))).2.1 (by decide)

end Dep
